import Mathlib

/-!
Shallow embedding of `src/twitch_all_campaigns_snapshot.py` (DropNoti).

Conventions:
* A Python `str` is modelled as `List Char` (a sequence of Unicode code points,
  which is exactly Python's string model).
* Python byte strings are `List Nat` with each element `< 256`.
* Fallible or optional values are `Option`.
* Python `dict` (insertion-ordered, last-write-wins) is modelled as an
  association list with explicit insert semantics (`insertPy`).
* The regular-expression searches of the source are modelled as explicit
  decidable matchers over `List Char`; each matcher's doc comment names the
  regex it embeds.  Python's `re` module and `str` methods are Unicode aware
  (`\w`, `\d`, `str.lower`, …); the matchers here use the ASCII reading of
  those character classes, which coincides with Python on the ASCII texts the
  scraper handles.
-/

/-- True for the characters stripped by Python `str.strip()` (Unicode
whitespace, per `str.isspace`). -/
def isPySpace (c : Char) : Bool :=
  let n := c.toNat
  (0x09 ≤ n && n ≤ 0x0d) || n == 0x20 || (0x1c ≤ n && n ≤ 0x1f) ||
  n == 0x85 || n == 0xa0 || n == 0x1680 || (0x2000 ≤ n && n ≤ 0x200a) ||
  n == 0x2028 || n == 0x2029 || n == 0x202f || n == 0x205f || n == 0x3000

/-- Drop leading Python whitespace (left half of `str.strip()`). -/
def ltrim (l : List Char) : List Char := l.dropWhile isPySpace

/-- Drop trailing Python whitespace (right half of `str.strip()`). -/
def rtrim : List Char → List Char
  | [] => []
  | c :: cs => if rtrim cs = [] ∧ isPySpace c then [] else c :: rtrim cs

/-- Python `str.strip()`. -/
def pyStrip (l : List Char) : List Char := rtrim (ltrim l)

/-- Python `s.startswith(pat)` on code-point lists. -/
def startsWithL : List Char → List Char → Bool
  | _, [] => true
  | [], _ :: _ => false
  | c :: cs, p :: ps => c == p && startsWithL cs ps

/-- Case-insensitive variant of `startsWithL` (models `re.I` literal match;
ASCII case folding). -/
def startsWithCI : List Char → List Char → Bool
  | _, [] => true
  | [], _ :: _ => false
  | c :: cs, p :: ps => c.toLower == p.toLower && startsWithCI cs ps

/-- Python `pat in s`: is `pat` a (contiguous) substring of `l`? -/
def containsSub (l pat : List Char) : Bool :=
  match l with
  | [] => startsWithL [] pat
  | c :: cs => startsWithL (c :: cs) pat || containsSub cs pat

/-- Python `s.split(pat, 1)`: split at the first occurrence of `pat`,
returning the pieces before and after it.  Only meaningful when
`containsSub l pat` holds (as at the single use site in the source). -/
def splitFirst (l pat : List Char) : List Char × List Char :=
  match l with
  | [] => ([], [])
  | c :: cs =>
    if startsWithL (c :: cs) pat then ([], (c :: cs).drop pat.length)
    else
      let p := splitFirst cs pat
      (c :: p.1, p.2)

/-- Python `str.lower()` applied pointwise (ASCII case folding). -/
def lowerL (l : List Char) : List Char := l.map Char.toLower

/-- Is the character a line-break character of the class `[\r\n]`? -/
def isRN (c : Char) : Bool := c == '\r' || c == '\n'

/-- Fuelled worker for `splitRN`; the fuel is an upper bound on the number of
separator runs and never runs out at the call site below. -/
def splitRNGo : Nat → List Char → List (List Char)
  | 0, l => [l]
  | fuel + 1, l =>
    let piece := l.takeWhile (fun c => !isRN c)
    let rest := l.dropWhile (fun c => !isRN c)
    match rest with
    | [] => [piece]
    | _ :: _ => piece :: splitRNGo fuel (rest.dropWhile isRN)

/-- Python `re.split(r"[\r\n]+", text)`: split on maximal runs of CR/LF. -/
def splitRN (l : List Char) : List (List Char) := splitRNGo l.length l

/-- Python `str.title()`: every letter that follows a non-letter is
uppercased, every other letter lowercased (ASCII letters). -/
def pyTitleGo : Bool → List Char → List Char
  | _, [] => []
  | prevCased, c :: cs =>
    if c.isAlpha then (if prevCased then c.toLower else c.toUpper) :: pyTitleGo true cs
    else c :: pyTitleGo false cs

/-- Python `str.title()`. -/
def pyTitle (l : List Char) : List Char := pyTitleGo false l

/-- Replacement used by `slug.replace("-", " ")` in the source. -/
def dashToSpace (c : Char) : Char := if c = '-' then ' ' else c

/-! ## SHA-256 (as used by `hashlib.sha256(...).hexdigest()`)

A direct FIPS 180-4 implementation over byte lists, with 32-bit words as
`Nat` kept below `2 ^ 32`. -/

/-- Modulus of 32-bit words. -/
def M32 : Nat := 4294967296

/-- Right rotation of a 32-bit word by `n` bits. -/
def rotr32 (n w : Nat) : Nat := ((w >>> n) ||| (w <<< (32 - n))) % M32

/-- SHA-256 big sigma 0. -/
def bsig0 (w : Nat) : Nat := rotr32 2 w ^^^ rotr32 13 w ^^^ rotr32 22 w

/-- SHA-256 big sigma 1. -/
def bsig1 (w : Nat) : Nat := rotr32 6 w ^^^ rotr32 11 w ^^^ rotr32 25 w

/-- SHA-256 small sigma 0. -/
def ssig0 (w : Nat) : Nat := rotr32 7 w ^^^ rotr32 18 w ^^^ (w >>> 3)

/-- SHA-256 small sigma 1. -/
def ssig1 (w : Nat) : Nat := rotr32 17 w ^^^ rotr32 19 w ^^^ (w >>> 10)

/-- SHA-256 choice function (with 32-bit complement). -/
def chF (x y z : Nat) : Nat := (x &&& y) ^^^ ((x ^^^ 0xffffffff) &&& z)

/-- SHA-256 majority function. -/
def majF (x y z : Nat) : Nat := (x &&& y) ^^^ (x &&& z) ^^^ (y &&& z)

/-- SHA-256 round constants (FIPS 180-4 section 4.2.2, written in decimal). -/
def sha256K : List Nat :=
  [1116352408, 1899447441, 3049323471, 3921009573, 961987163, 1508970993,
   2453635748, 2870763221, 3624381080, 310598401, 607225278, 1426881987,
   1925078388, 2162078206, 2614888103, 3248222580, 3835390401, 4022224774,
   264347078, 604807628, 770255983, 1249150122, 1555081692, 1996064986,
   2554220882, 2821834349, 2952996808, 3210313671, 3336571891, 3584528711,
   113926993, 338241895, 666307205, 773529912, 1294757372, 1396182291,
   1695183700, 1986661051, 2177026350, 2456956037, 2730485921, 2820302411,
   3259730800, 3345764771, 3516065817, 3600352804, 4094571909, 275423344,
   430227734, 506948616, 659060556, 883997877, 958139571, 1322822218,
   1537002063, 1747873779, 1955562222, 2024104815, 2227730452, 2361852424,
   2428436474, 2756734187, 3204031479, 3329325298]

/-- SHA-256 initial hash state (FIPS 180-4 section 5.3.3, in decimal). -/
def sha256H0 : List Nat :=
  [1779033703, 3144134277, 1013904242, 2773480762, 1359893119, 2600822924,
   528734635, 1541459225]

/-- Big-endian byte expansion: `beBytes k n` is the `k` lowest bytes of `n`,
most significant first. -/
def beBytes : Nat → Nat → List Nat
  | 0, _ => []
  | k + 1, n => beBytes k (n >>> 8) ++ [n &&& 0xff]

/-- SHA-256 message padding over bytes. -/
def padMsg (msg : List Nat) : List Nat :=
  let len := msg.length
  let zeros := (64 - (len + 9) % 64) % 64
  msg ++ [0x80] ++ List.replicate zeros 0 ++ beBytes 8 (len * 8)

/-- Pack bytes into big-endian 32-bit words (input length a multiple of 4). -/
def toWords : List Nat → List Nat
  | a :: b :: c :: d :: rest => ((((a <<< 8) ||| b) <<< 8 ||| c) <<< 8 ||| d) :: toWords rest
  | _ => []

/-- Split a word list into the given number of 16-word blocks. -/
def toBlocks : Nat → List Nat → List (List Nat)
  | 0, _ => []
  | k + 1, ws => ws.take 16 :: toBlocks k (ws.drop 16)

/-- Message-schedule extension of one 16-word block to 64 words. -/
def extendW (block : List Nat) : Array Nat :=
  (List.range 48).foldl
    (fun arr _ =>
      arr.push ((ssig1 (arr.getD (arr.size - 2) 0) + arr.getD (arr.size - 7) 0 +
                 ssig0 (arr.getD (arr.size - 15) 0) + arr.getD (arr.size - 16) 0) % M32))
    block.toArray

/-- State tuple of the SHA-256 compression loop. -/
def Sha256St : Type := Nat × Nat × Nat × Nat × Nat × Nat × Nat × Nat

/-- One round of the SHA-256 compression function. -/
def sha256Round (st : Sha256St) (wk : Nat × Nat) : Sha256St :=
  let (a, b, c, d, e, f, g, h) := st
  let t1 := (h + bsig1 e + chF e f g + wk.2 + wk.1) % M32
  let t2 := (bsig0 a + majF a b c) % M32
  ((t1 + t2) % M32, a, b, c, (d + t1) % M32, e, f, g)

/-- Compress one 16-word block into the running hash state. -/
def sha256Compress (h : List Nat) (block : List Nat) : List Nat :=
  let w := (extendW block).toList
  let a0 := h.getD 0 0
  let b0 := h.getD 1 0
  let c0 := h.getD 2 0
  let d0 := h.getD 3 0
  let e0 := h.getD 4 0
  let f0 := h.getD 5 0
  let g0 := h.getD 6 0
  let h0 := h.getD 7 0
  let st := (w.zip sha256K).foldl sha256Round (a0, b0, c0, d0, e0, f0, g0, h0)
  let (a, b, c, d, e, f, g, hh) := st
  [(a0 + a) % M32, (b0 + b) % M32, (c0 + c) % M32, (d0 + d) % M32,
   (e0 + e) % M32, (f0 + f) % M32, (g0 + g) % M32, (h0 + hh) % M32]

/-- SHA-256 digest (32 bytes) of a byte list. -/
def sha256 (msg : List Nat) : List Nat :=
  let ws := toWords (padMsg msg)
  let hF := (toBlocks (ws.length / 16) ws).foldl sha256Compress sha256H0
  (hF.map (beBytes 4)).flatten

/-- Lowercase hex digit for a value below 16. -/
def hexDigit (n : Nat) : Char := if n < 10 then Char.ofNat (48 + n) else Char.ofNat (87 + n)

/-- Two lowercase hex digits of a byte (as in `hexdigest()`). -/
def byteHex (b : Nat) : List Char := [hexDigit (b >>> 4), hexDigit (b &&& 0xf)]

/-- Python `hashlib.sha256(bytes).hexdigest()` as a code-point list. -/
def hexdigest (bytes : List Nat) : List Char := (bytes.map byteHex).flatten

/-- UTF-8 encoding of one code point (Python `str.encode("utf-8")` per char). -/
def utf8Char (c : Char) : List Nat :=
  let n := c.toNat
  if n < 0x80 then [n]
  else if n < 0x800 then [0xc0 ||| (n >>> 6), 0x80 ||| (n &&& 0x3f)]
  else if n < 0x10000 then
    [0xe0 ||| (n >>> 12), 0x80 ||| ((n >>> 6) &&& 0x3f), 0x80 ||| (n &&& 0x3f)]
  else
    [0xf0 ||| (n >>> 18), 0x80 ||| ((n >>> 12) &&& 0x3f),
     0x80 ||| ((n >>> 6) &&& 0x3f), 0x80 ||| (n &&& 0x3f)]

/-- Python `str.encode("utf-8")`. -/
def utf8Bytes (l : List Char) : List Nat := (l.map utf8Char).flatten


/-! ## Campaign records and the row parser (`parse_campaign_row`) -/

/-- A campaign record, as assembled at `src/twitch_all_campaigns_snapshot.py`
lines 150–162 (dict keys become fields; `start_raw`/`end_raw` are `None`-able). -/
structure Item where
  game_name : List Char
  game_slug : List Char
  campaign_title : List Char
  timeframe : List Char
  start_raw : Option (List Char)
  end_raw : Option (List Char)
  rewards : List (List Char)
  raw_text : List Char
  id : List Char
deriving DecidableEq, Repr

instance : Inhabited Item :=
  ⟨{ game_name := [], game_slug := [], campaign_title := [], timeframe := [],
     start_raw := none, end_raw := none, rewards := [], raw_text := [], id := [] }⟩

/-- The identity computation of lines 161–162:
`basis = f"{slug}|{timeframe}|{','.join(rewards)}"`,
`id = hashlib.sha256(basis.encode("utf-8")).hexdigest()[:16]`. -/
def make_id (slug timeframe : List Char) (rewards : List (List Char)) : List Char :=
  let basis := slug ++ ('|' :: timeframe) ++ ('|' :: List.intercalate [','] rewards)
  (hexdigest (sha256 (utf8Bytes basis))).take 16

/-- Characters excluded by the `[^/?#]` class of the directory-link regex. -/
def goodSlugChar (c : Char) : Bool := !(c == '/' || c == '?' || c == '#')

/-- The `[^/?#]+` tail of the directory-link regex at one position: the
maximal run of allowed characters, failing when it is empty. -/
def tryTail (r : List Char) : Option (List Char) :=
  let sp := r.takeWhile goodSlugChar
  if sp.isEmpty then none else some sp

/-- Literal part `https://www\.twitch\.tv/directory/` of the link regex. -/
def dirLit : List Char := "https://www.twitch.tv/directory/".data

/-- Literal of the optional group `(category/)?` of the link regex. -/
def catLit : List Char := "category/".data

/-- One anchored attempt of
`re.search(r"https://www\.twitch\.tv/directory/(category/)?([^/?#]+)", href, re.I)`
at the start of `suffix`, returning group 2 on success.  The greedy optional
group backtracks: if `category/` is present but no slug character follows it,
the attempt retries with the group empty (so group 2 can be `category`). -/
def matchDirAt (suffix : List Char) : Option (List Char) :=
  if startsWithCI suffix dirLit then
    match (if startsWithCI (suffix.drop 32) catLit
           then tryTail ((suffix.drop 32).drop 9) else none) with
    | some sp => some sp
    | none => tryTail (suffix.drop 32)
  else none

/-- Leftmost-first scan of `re.search` for the directory-link pattern. -/
def searchDir : List Char → Option (List Char)
  | [] => none
  | c :: cs =>
    match matchDirAt (c :: cs) with
    | some sp => some sp
    | none => searchDir cs

/-- Function `extract_game_from_links` (lines 94–101): first link whose text
matches the directory pattern wins; the captured slug is lowercased.  The
source wraps the slug in a one-field dict, elided here. -/
def extract_game_from_links (links : List (List Char)) : Option (List Char) :=
  links.findSome? (fun href => (searchDir href).map (fun sp => sp.map Char.toLower))

/-- Word characters of the regex class `\w` (ASCII reading). -/
def isWordChar (c : Char) : Bool := c.isAlphanum || c == '_'

/-- Word-boundary test on the left of position `i` (start of string or a
non-word character before `i`). -/
def bLeft (l : List Char) (i : Nat) : Bool :=
  i == 0 || !isWordChar (l.getD (i - 1) ' ')

/-- Word-boundary test on the right of a token ending before position `i`
(end of string or a non-word character at `i`). -/
def bRight (l : List Char) (i : Nat) : Bool :=
  decide (l.length ≤ i) || !isWordChar (l.getD i ' ')

/-- Length of the maximal digit run at position `i` (regex `\d+`). -/
def digitRun (l : List Char) (i : Nat) : Nat :=
  ((l.drop i).takeWhile Char.isDigit).length

/-- Length of the maximal whitespace run at position `i` (regex `\s*`). -/
def spaceRun (l : List Char) (i : Nat) : Nat :=
  ((l.drop i).takeWhile isPySpace).length

/-- Alternation `(hours?|hrs?|h)\b` of `WATCH_RE`, expanded to its five
possible literals, case-insensitively, each followed by a word boundary. -/
def unitAt (l : List Char) (i : Nat) : Bool :=
  (["hours", "hour", "hrs", "hr", "h"]).any
    (fun u => startsWithCI (l.drop i) u.data && bRight l (i + u.length))

/-- After the number of `WATCH_RE`: skip `\s*`, then match the unit. -/
def unitFrom (l : List Char) (k : Nat) : Bool := unitAt l (k + spaceRun l k)

/-- Tail `\b(\d+(\.\d+)?)\s*(hours?|hrs?|h)\b` of `WATCH_RE` with the number
starting at `j`; the optional fraction backtracks when the rest fails. -/
def numUnitAt (l : List Char) (j : Nat) : Bool :=
  bLeft l j &&
  (let d := digitRun l j
   decide (0 < d) &&
   (unitFrom l (j + d) ||
    (l.getD (j + d) ' ' == '.' &&
     (let d2 := digitRun l (j + d + 1)
      decide (0 < d2) && unitFrom l (j + d + 1 + d2)))))

/-- Search of `WATCH_RE = \bwatch\b.*?\b(\d+(\.\d+)?)\s*(hours?|hrs?|h)\b`
(with `re.I`): some position carries a bounded word `watch` and, anywhere to
its right, a number-and-unit match.  Laziness of `.*?` does not affect
existence of a match. -/
def watchMatch (l : List Char) : Bool :=
  (List.range l.length).any (fun i =>
    bLeft l i && startsWithCI (l.drop i) "watch".data && bRight l (i + 5) &&
    (List.range (l.length + 1)).any (fun j => decide (i + 5 ≤ j) && numUnitAt l j))

/-- Search of `DROP_RE = \bdrop(s)?\b` (with `re.I`): a bounded word `drop`
or `drops`; the optional `s` backtracks if no boundary follows it. -/
def dropMatch (l : List Char) : Bool :=
  (List.range l.length).any (fun i =>
    bLeft l i && startsWithCI (l.drop i) "drop".data &&
    ((startsWithCI (l.drop (i + 4)) "s".data && bRight l (i + 5)) || bRight l (i + 4)))

/-- Alternation tokens of `TIME_RE` (weekday, month and timezone names). -/
def timeTokens : List (List Char) :=
  (["Mon", "Tue", "Wed", "Thu", "Fri", "Sat", "Sun", "Jan", "Feb", "Mar", "Apr",
    "May", "Jun", "Jul", "Aug", "Sep", "Oct", "Nov", "Dec", "GMT", "UTC", "CET",
    "CEST"]).map String.data

/-- Case-insensitive substring test (a `re.I` search for a literal). -/
def containsSubCI (l pat : List Char) : Bool := containsSub (lowerL l) (lowerL pat)

/-- Search of `TIME_RE` (line 27): any of the tokens occurs as a
case-insensitive substring (the regex has no word boundaries). -/
def timeMatch (l : List Char) : Bool := timeTokens.any (fun t => containsSubCI l t)

/-- Lines of the row text: `[l.strip() for l in re.split(r"[\r\n]+", text) if l.strip()]`
(line 113). -/
def parseLines (text : List Char) : List (List Char) :=
  ((splitRN text).map pyStrip).filter (fun l => !l.isEmpty)

/-- Predicate of the game-name loop (lines 116–120): short line without the
word `campaign` (case-insensitively, as a substring of the lowered line). -/
def goodNameLine (ln : List Char) : Bool :=
  decide (ln.length ≤ 50) && !containsSub (lowerL ln) "campaign".data

/-- Game-name guess of lines 116–120: first suitable line of the first four,
empty string when none qualifies. -/
def pickGameName (lines : List (List Char)) : List Char :=
  ((lines.take 4).find? goodNameLine).getD []

/-- Timeframe pick of lines 123–127: first line matching `TIME_RE`, else
empty. -/
def pickTimeframe (lines : List (List Char)) : List Char :=
  (lines.find? timeMatch).getD []

/-- Reward-line predicate of lines 130–133. -/
def rewardLine (ln : List Char) : Bool :=
  watchMatch ln || (dropMatch ln && decide (ln.length ≤ 160))

/-- Rewards of lines 130–133: every matching line, in order. -/
def pickRewards (lines : List (List Char)) : List (List Char) :=
  lines.filter rewardLine

/-- Title-line predicate of lines 137–141. -/
def titleLine (ln : List Char) : Bool :=
  (containsSub (lowerL ln) "drop".data || containsSub (lowerL ln) "campaign".data ||
   containsSub (lowerL ln) "watch".data) && decide (ln.length ≤ 120)

/-- Title pick of lines 136–143: first matching line of the first six, else
the first line overall, else empty. -/
def pickTitle (lines : List (List Char)) : List Char :=
  let t := ((lines.take 6).find? titleLine).getD []
  if t.isEmpty then lines.headD [] else t

/-- Separator literal `" - "` of lines 147–148. -/
def sepLit : List Char := " - ".data

/-- Start/end extraction of lines 145–148 merged with the `or None`
conversions at lines 155–156: split `timeframe` at the first `" - "`, strip
both halves, and turn empty strings into `none`. -/
def mkStartEnd (timeframe : List Char) : Option (List Char) × Option (List Char) :=
  if containsSub timeframe sepLit then
    let s := pyStrip (splitFirst timeframe sepLit).1
    let e := pyStrip (splitFirst timeframe sepLit).2
    (if s.isEmpty then none else some s, if e.isEmpty then none else some e)
  else (none, none)

/-- Function `parse_campaign_row` (lines 103–163) as a function of the row's
normalized text and link list (the two row reads at lines 104 and 108). -/
def parse_campaign_row (text : List Char) (links : List (List Char)) : Option Item :=
  if text.isEmpty || decide (text.length < 20) then none
  else
    match extract_game_from_links links with
    | none => none
    | some slug =>
      let lines := parseLines text
      let gn := pickGameName lines
      let tf := pickTimeframe lines
      let se := mkStartEnd tf
      some
        { game_name := if gn.isEmpty then pyTitle (slug.map dashToSpace) else gn
          game_slug := slug
          campaign_title := pickTitle lines
          timeframe := tf
          start_raw := se.1
          end_raw := se.2
          rewards := pickRewards lines
          raw_text := text
          id := make_id slug tf (pickRewards lines) }

/-! ## Snapshots, dedup, persistence, diff and notification -/

/-- A snapshot document.  `scraped_at` and `count` are optional because the
empty document `{"campaigns": []}` built by `load_previous` lacks them. -/
structure Snapshot where
  scraped_at : Option (List Char)
  count : Option Nat
  campaigns : List Item
deriving DecidableEq, Repr

/-- Python `dict` assignment `m[k] = v` on an insertion-ordered association
list: overwrite in place when the key exists, else append. -/
def insertPy (m : List (List Char × Item)) (k : List Char) (v : Item) :
    List (List Char × Item) :=
  if m.any (fun q => decide (q.1 = k)) then
    m.map (fun q => if q.1 = k then (k, v) else q)
  else m ++ [(k, v)]

/-- The id-keyed dict `{c["id"]: c for c in cs}` (lines 205–207 and 225–226). -/
def buildMap (cs : List Item) : List (List Char × Item) :=
  cs.foldl (fun m c => insertPy m c.id c) []

/-- Python `k in m` on the association list. -/
def hasKey (m : List (List Char × Item)) (k : List Char) : Bool :=
  m.any (fun q => decide (q.1 = k))

/-- Python `m[k]` (partial lookup) on the association list. -/
def lookupPy (m : List (List Char × Item)) (k : List Char) : Option Item :=
  (m.find? (fun q => decide (q.1 = k))).map (fun q => q.2)

/-- Python `list(m.values())`. -/
def valuesPy (m : List (List Char × Item)) : List Item := m.map (fun q => q.2)

/-- The Identity & Dedup step of `scrape_all_campaigns` (lines 205–207 and
212): keep one record per `id`, last seen wins, first-seen order. -/
def dedup_step (items : List Item) : List Item := valuesPy (buildMap items)

/-- Snapshot assembly of lines 209–213 (the timestamp is an input here; the
source reads the wall clock). -/
def mk_snapshot (ts : List Char) (items : List Item) : Snapshot :=
  { scraped_at := some ts
    count := some (dedup_step items).length
    campaigns := dedup_step items }

/-- Function `load_previous` (lines 216–222).  The file-system read and JSON
parse are collaborators; their combined outcome is the argument: `none` when
the snapshot file does not exist, `some (Except.error e)` when it exists but
`json.loads` raises, `some (Except.ok s)` when it parses.  The source returns
the parsed document, or the literal `{"campaigns": []}` otherwise. -/
def load_previous (file : Option (Except (List Char) Snapshot)) : Snapshot :=
  match file with
  | some (Except.ok s) => s
  | some (Except.error _) => { scraped_at := none, count := none, campaigns := [] }
  | none => { scraped_at := none, count := none, campaigns := [] }

/-- The three classified lists returned by `diff_campaigns`. -/
structure DiffResult where
  added : List Item
  removed : List Item
  changed : List Item
deriving DecidableEq, Repr

/-- The body of the `changed` loop of `diff_campaigns` (lines 229–232) for
one key of the old index present in `new_map`: emit the new record when
`timeframe` or `rewards` differ. -/
def changedEntry (new_map : List (List Char × Item)) (p : List Char × Item) :
    Option Item :=
  match lookupPy new_map p.1 with
  | none => none
  | some c =>
    if p.2.timeframe ≠ c.timeframe ∨ p.2.rewards ≠ c.rewards then some c else none

/-- Function `diff_campaigns` (lines 224–233).  Python iterates the key-set
differences and intersection in unspecified (hash) order; the embedding
iterates in the maps' insertion order — every theorem below about the result
lists is stated order-insensitively (membership or emptiness). -/
def diff_campaigns (old new : Snapshot) : DiffResult :=
  let old_map := buildMap old.campaigns
  let new_map := buildMap new.campaigns
  { added := valuesPy (new_map.filter (fun p => !hasKey old_map p.1))
    removed := valuesPy (old_map.filter (fun p => !hasKey new_map p.1))
    changed := old_map.filterMap (changedEntry new_map) }

/-- Message composition and send decision of `notify_for_targets`
(lines 235–257).  The Telegram collaborator is abstracted: the result is
`none` when the function returns without sending (line 241) and `some msg`
when it calls `tg_send(msg)`.  The watch set `TARGET_SLUGS` is the `targets`
argument. -/
def notify_for_targets (targets : List (List Char)) (d : DiffResult) :
    Option (List Char) :=
  let added := d.added.filter (fun c => targets.any (fun t => decide (t = c.game_slug)))
  let changed := d.changed.filter (fun c => targets.any (fun t => decide (t = c.game_slug)))
  if added.isEmpty && changed.isEmpty then none
  else
    let entry := fun (c : Item) =>
      ("• ".data ++ c.game_name ++ ": ".data ++
       (if c.timeframe.isEmpty then "Dates TBA".data else c.timeframe))
    let lines := ["🎁 Twitch Drops update (targets)".data]
    let lines := lines ++
      (if added.isEmpty then [] else
        ("New: ".data ++ (Nat.repr added.length).data) :: (added.take 3).map entry)
    let lines := lines ++
      (if changed.isEmpty then [] else
        ("Updated: ".data ++ (Nat.repr changed.length).data) :: (changed.take 2).map entry)
    let pick := (added ++ changed).take 1
    let lines := lines ++
      (match pick with
       | [] => []
       | c :: _ =>
         if c.rewards.isEmpty then []
         else ["Rewards: ".data ++ (List.intercalate "; ".data c.rewards).take 200])
    some (List.intercalate "\n".data lines)

/-! ## Lemmas about the string helpers -/

/-- A successful exact-prefix match decomposes the string. -/
theorem startsWithL_decomp : ∀ {pat l : List Char},
    startsWithL l pat = true → l = pat ++ l.drop pat.length := by
  intro pat
  induction pat with
  | nil => intro l _; simp
  | cons p ps ih =>
    intro l h
    cases l with
    | nil => simp [startsWithL] at h
    | cons c cs =>
      simp only [startsWithL, Bool.and_eq_true, beq_iff_eq] at h
      obtain ⟨rfl, h2⟩ := h
      simpa using ih h2

/-- A successful substring search decomposes the string around the first
occurrence, at the point computed by `splitFirst`. -/
theorem containsSub_decomp {pat : List Char} : ∀ {l : List Char},
    containsSub l pat = true →
    l = (splitFirst l pat).1 ++ pat ++ (splitFirst l pat).2 := by
  intro l
  induction l with
  | nil =>
    intro h
    simp only [containsSub] at h
    cases pat with
    | nil => simp [splitFirst]
    | cons p ps => simp [startsWithL] at h
  | cons c cs ih =>
    intro h
    simp only [containsSub, Bool.or_eq_true] at h
    by_cases hs : startsWithL (c :: cs) pat = true
    · have := startsWithL_decomp hs
      simp only [splitFirst, if_pos hs]
      simpa using this
    · have h2 : containsSub cs pat = true := by
        rcases h with h | h
        · exact absurd h hs
        · exact h
      simp only [splitFirst, if_neg hs]
      have := ih h2
      simpa using congrArg (c :: ·) this

/-- Characters surviving a `dropWhile` head position fail the predicate. -/
theorem dropWhile_head_false {p : Char → Bool} : ∀ {l : List Char} {c : Char} {r : List Char},
    l.dropWhile p = c :: r → p c = false := by
  intro l
  induction l with
  | nil => intro c r h; simp at h
  | cons a as ih =>
    intro c r h
    by_cases ha : p a = true
    · rw [List.dropWhile_cons_of_pos ha] at h
      exact ih h
    · rw [List.dropWhile_cons_of_neg ha] at h
      cases h
      exact Bool.eq_false_iff.mpr ha

/-- Membership among non-space characters is preserved by `ltrim`. -/
theorem mem_ltrim {c : Char} (hs : isPySpace c = false) : ∀ {l : List Char},
    c ∈ l → c ∈ ltrim l := by
  intro l
  induction l with
  | nil => intro h; simp at h
  | cons a as ih =>
    intro h
    by_cases ha : isPySpace a = true
    · have : c ∈ as := by
        rcases List.mem_cons.mp h with rfl | h2
        · rw [ha] at hs; simp at hs
        · exact h2
      simpa [ltrim, List.dropWhile_cons_of_pos ha] using ih this
    · simpa [ltrim, List.dropWhile_cons_of_neg ha] using h

/-- `rtrim` erases the whole list exactly when it is all whitespace. -/
theorem rtrim_eq_nil_iff : ∀ {l : List Char},
    rtrim l = [] ↔ ∀ c ∈ l, isPySpace c = true := by
  intro l
  induction l with
  | nil => simp [rtrim]
  | cons a as ih =>
    simp only [rtrim]
    by_cases h : rtrim as = [] ∧ isPySpace a = true
    · rw [if_pos h]
      simp only [true_iff, List.mem_cons]
      intro c hc
      rcases hc with rfl | hc
      · exact h.2
      · exact ih.mp h.1 c hc
    · rw [if_neg h]
      constructor
      · intro hfalse; exact absurd hfalse (List.cons_ne_nil _ _)
      · intro hall
        exact absurd ⟨ih.mpr (fun c hc => hall c (List.mem_cons_of_mem _ hc)),
          hall a (List.mem_cons_self _ _)⟩ h

/-- A list containing a non-space character does not strip to empty. -/
theorem pyStrip_ne_nil {c : Char} {l : List Char} (hc : c ∈ l)
    (hs : isPySpace c = false) : pyStrip l ≠ [] := by
  intro h
  have hmem : c ∈ ltrim l := mem_ltrim hs hc
  have := rtrim_eq_nil_iff.mp h c hmem
  rw [this] at hs
  simp at hs

/-- `rtrim` preserves the head of the list. -/
theorem rtrim_head : ∀ {l : List Char} {c : Char} {r : List Char},
    rtrim l = c :: r → l.head? = some c := by
  intro l c r h
  cases l with
  | nil => simp [rtrim] at h
  | cons a as =>
    simp only [rtrim] at h
    by_cases hcond : rtrim as = [] ∧ isPySpace a = true
    · rw [if_pos hcond] at h; simp at h
    · rw [if_neg hcond] at h
      cases h
      rfl

/-- The last character of an `rtrim` result is not whitespace. -/
theorem rtrim_getLast : ∀ {l : List Char} {c : Char},
    (rtrim l).getLast? = some c → isPySpace c = false := by
  intro l
  induction l with
  | nil => intro c h; simp [rtrim] at h
  | cons a as ih =>
    intro c h
    simp only [rtrim] at h
    by_cases hcond : rtrim as = [] ∧ isPySpace a = true
    · rw [if_pos hcond] at h; simp at h
    · rw [if_neg hcond] at h
      cases hr : rtrim as with
      | nil =>
        rw [hr] at h
        simp only [List.getLast?_singleton, Option.some.injEq] at h
        subst h
        rcases Decidable.not_and_iff_or_not.mp hcond with h1 | h1
        · exact absurd hr h1
        · exact Bool.eq_false_iff.mpr h1
      | cons b bs =>
        rw [hr, List.getLast?_cons_cons] at h
        exact ih (hr ▸ h)

/-- The head of a `pyStrip` result is not whitespace. -/
theorem pyStrip_head {l : List Char} {c : Char} {r : List Char}
    (h : pyStrip l = c :: r) : isPySpace c = false := by
  have h1 : (ltrim l).head? = some c := rtrim_head h
  cases hl : ltrim l with
  | nil => rw [hl] at h1; simp at h1
  | cons b bs =>
    rw [hl] at h1
    simp only [List.head?_cons, Option.some.injEq] at h1
    subst h1
    exact dropWhile_head_false hl

/-- The last character of a `pyStrip` result is not whitespace. -/
theorem pyStrip_getLast {l : List Char} {c : Char}
    (h : (pyStrip l).getLast? = some c) : isPySpace c = false :=
  rtrim_getLast h

/-- When the timeframe is a stripped, non-empty line containing `" - "`, both
halves of the split strip to non-empty strings, so neither side of
`mkStartEnd` degrades to `none` through the `or None` conversion. -/
theorem mkStartEnd_of_sep {x tf : List Char} (htf : tf = pyStrip x) (hne : tf ≠ [])
    (hsep : containsSub tf sepLit = true) :
    mkStartEnd tf = (some (pyStrip (splitFirst tf sepLit).1),
                     some (pyStrip (splitFirst tf sepLit).2)) := by
  have hd : tf = (splitFirst tf sepLit).1 ++ sepLit ++ (splitFirst tf sepLit).2 :=
    containsSub_decomp hsep
  obtain ⟨c, rest, hc⟩ : ∃ c rest, tf = c :: rest := by
    cases h : tf with
    | nil => exact absurd h hne
    | cons a as => exact ⟨a, as, rfl⟩
  have hpx : pyStrip x = c :: rest := by rw [← htf]; exact hc
  have hcs : isPySpace c = false := pyStrip_head hpx
  have ha : (splitFirst tf sepLit).1 ≠ [] := by
    intro h0
    rw [h0, List.nil_append] at hd
    rw [hc] at hd
    have : c = ' ' := by
      have := congrArg List.head? hd
      simpa [sepLit] using this
    rw [this] at hcs
    simp [isPySpace] at hcs
  have ha2 : pyStrip (splitFirst tf sepLit).1 ≠ [] := by
    have hmem : c ∈ (splitFirst tf sepLit).1 := by
      cases h1 : (splitFirst tf sepLit).1 with
      | nil => exact absurd h1 ha
      | cons b bs =>
        have : tf.head? = some b := by
          rw [hd, h1]
          simp
        rw [hc] at this
        simp only [List.head?_cons, Option.some.injEq] at this
        rw [← this]
        exact List.mem_cons_self _ _
    exact pyStrip_ne_nil hmem hcs
  have htfne : tf ≠ [] := hne
  have hlast : ∃ d, tf.getLast? = some d ∧ isPySpace d = false := by
    have h1 : tf.getLast? = some (tf.getLast htfne) :=
      List.getLast?_eq_getLast_of_ne_nil htfne
    refine ⟨_, h1, ?_⟩
    refine pyStrip_getLast (l := x) ?_
    rw [← htf]
    exact h1
  obtain ⟨d, hd1, hd2⟩ := hlast
  have hb : (splitFirst tf sepLit).2 ≠ [] := by
    intro h0
    rw [h0, List.append_nil] at hd
    rw [hd] at hd1
    rw [List.getLast?_append_of_ne_nil _ (by simp [sepLit])] at hd1
    have : d = ' ' := by simpa [sepLit] using hd1.symm
    rw [this] at hd2
    simp [isPySpace] at hd2
  have hb2 : pyStrip (splitFirst tf sepLit).2 ≠ [] := by
    have hdl : tf.getLast? = ((splitFirst tf sepLit).2).getLast? := by
      conv_lhs => rw [hd]
      rw [List.getLast?_append_of_ne_nil _ hb]
    have hmemd : d ∈ (splitFirst tf sepLit).2 := by
      rw [hdl] at hd1
      obtain ⟨hne2, heq⟩ := List.mem_getLast?_eq_getLast (Option.mem_def.mpr hd1)
      rw [heq]
      exact List.getLast_mem hne2
    exact pyStrip_ne_nil hmemd hd2
  unfold mkStartEnd
  rw [if_pos hsep]
  simp only [List.isEmpty_iff]
  rw [if_neg ha2, if_neg hb2]

/-! ## Lemmas about the parser -/

/-- Inversion of a successful parse: every field of the produced record in
terms of the pick functions of the embedding. -/
theorem parse_inv {text : List Char} {links : List (List Char)} {r : Item}
    (h : parse_campaign_row text links = some r) :
    extract_game_from_links links = some r.game_slug ∧
    r.timeframe = pickTimeframe (parseLines text) ∧
    r.game_name = (if (pickGameName (parseLines text)).isEmpty
                   then pyTitle (r.game_slug.map dashToSpace)
                   else pickGameName (parseLines text)) ∧
    r.campaign_title = pickTitle (parseLines text) ∧
    r.start_raw = (mkStartEnd r.timeframe).1 ∧
    r.end_raw = (mkStartEnd r.timeframe).2 ∧
    r.rewards = pickRewards (parseLines text) ∧
    r.raw_text = text ∧
    r.id = make_id r.game_slug r.timeframe r.rewards := by
  unfold parse_campaign_row at h
  by_cases hg : (text.isEmpty || decide (text.length < 20)) = true
  · rw [if_pos hg] at h
    exact absurd h (by simp)
  · rw [if_neg hg] at h
    cases he : extract_game_from_links links with
    | none =>
      rw [he] at h
      exact absurd h (by simp)
    | some slug =>
      rw [he] at h
      simp only [Option.some.injEq] at h
      subst h
      exact ⟨rfl, rfl, rfl, rfl, rfl, rfl, rfl, rfl, rfl⟩

/-- Every line produced by `parseLines` is a non-empty stripped string. -/
theorem mem_parseLines {text ln : List Char} (h : ln ∈ parseLines text) :
    ln ≠ [] ∧ ∃ x, ln = pyStrip x := by
  unfold parseLines at h
  obtain ⟨h1, h2⟩ := List.mem_filter.mp h
  refine ⟨by simpa [List.isEmpty_iff] using h2, ?_⟩
  obtain ⟨x, _, hx⟩ := List.mem_map.mp h1
  exact ⟨x, hx.symm⟩

/-- The picked timeframe is either empty or a non-empty stripped line. -/
theorem pickTimeframe_shape (text : List Char) :
    pickTimeframe (parseLines text) = [] ∨
    (pickTimeframe (parseLines text) ≠ [] ∧
     ∃ x, pickTimeframe (parseLines text) = pyStrip x) := by
  unfold pickTimeframe
  cases hf : (parseLines text).find? timeMatch with
  | none => left; rfl
  | some ln =>
    right
    have hmem : ln ∈ parseLines text := List.mem_of_find?_eq_some hf
    obtain ⟨h1, h2⟩ := mem_parseLines hmem
    simpa using ⟨h1, h2⟩

/-- A successful directory-pattern attempt captures a non-empty group. -/
theorem matchDirAt_ne_nil {l sp : List Char} (h : matchDirAt l = some sp) : sp ≠ [] := by
  unfold matchDirAt at h
  by_cases h1 : startsWithCI l dirLit = true
  · rw [if_pos h1] at h
    have htail : ∀ {r s : List Char}, tryTail r = some s → s ≠ [] := by
      intro r s hts
      unfold tryTail at hts
      by_cases he : (r.takeWhile goodSlugChar).isEmpty = true
      · rw [if_pos he] at hts; exact absurd hts (by simp)
      · rw [if_neg he] at hts
        simp only [Option.some.injEq] at hts
        subst hts
        simpa [List.isEmpty_iff] using he
    cases hc : (if startsWithCI (l.drop 32) catLit = true
                then tryTail ((l.drop 32).drop 9) else none) with
    | none =>
      rw [hc] at h
      exact htail h
    | some sp2 =>
      rw [hc] at h
      simp only [Option.some.injEq] at h
      subst h
      by_cases h2 : startsWithCI (l.drop 32) catLit = true
      · rw [if_pos h2] at hc; exact htail hc
      · rw [if_neg h2] at hc; exact absurd hc (by simp)
  · rw [if_neg h1] at h
    exact absurd h (by simp)

/-- The regex scan only returns non-empty captures. -/
theorem searchDir_ne_nil : ∀ {l sp : List Char}, searchDir l = some sp → sp ≠ [] := by
  intro l
  induction l with
  | nil => intro sp h; simp [searchDir] at h
  | cons c cs ih =>
    intro sp h
    unfold searchDir at h
    cases hm : matchDirAt (c :: cs) with
    | none => rw [hm] at h; exact ih h
    | some sp2 =>
      rw [hm] at h
      simp only [Option.some.injEq] at h
      subst h
      exact matchDirAt_ne_nil hm

/-- A slug extracted from the link list is non-empty. -/
theorem extract_slug_ne_nil {links : List (List Char)} {slug : List Char}
    (h : extract_game_from_links links = some slug) : slug ≠ [] := by
  unfold extract_game_from_links at h
  obtain ⟨href, _, hf⟩ := List.exists_of_findSome?_eq_some h
  cases hs : searchDir href with
  | none => rw [hs] at hf; exact absurd hf (by simp)
  | some sp =>
    rw [hs] at hf
    simp only [Option.map_some', Option.some.injEq] at hf
    subst hf
    simpa using searchDir_ne_nil hs

/-- `pyTitleGo` preserves length. -/
theorem pyTitleGo_length : ∀ (b : Bool) (l : List Char), (pyTitleGo b l).length = l.length := by
  intro b l
  induction l generalizing b with
  | nil => rfl
  | cons c cs ih =>
    by_cases hc : c.isAlpha = true
    · simp [pyTitleGo, hc, ih]
    · simp [pyTitleGo, hc, ih]

/-- The slug-derived fallback game name of a non-empty slug is non-empty. -/
theorem pyTitle_fallback_ne_nil {slug : List Char} (h : slug ≠ []) :
    pyTitle (slug.map dashToSpace) ≠ [] := by
  intro h0
  have := congrArg List.length h0
  rw [pyTitle] at this
  rw [pyTitleGo_length, List.length_map] at this
  simp only [List.length_nil] at this
  exact h (List.length_eq_zero.mp this)

/-! ## Concrete witness data

A concrete row (the spec's §8 scenario shape), its variant with one extra
junk line (differing only in `raw_text`), and the records the parser builds
for them. -/

/-- Witness row text: three lines (name, watch-hours reward, timeframe). -/
def wText : List Char :=
  ("R6 Siege Drops\nWatch 4 hours to earn a charm\nSat, Jan 10 - Jan 24 GMT").data

/-- Witness row text with one extra line that matches no heuristic, so only
`raw_text` differs in the parsed record. -/
def wText2 : List Char :=
  ("R6 Siege Drops\nWatch 4 hours to earn a charm\nSat, Jan 10 - Jan 24 GMT\nzzqy").data

/-- Witness link list with one category-directory link. -/
def wLinks : List (List Char) :=
  [("https://www.twitch.tv/directory/category/tom-clancys-rainbow-six-siege").data]

/-- Reward lines the parser collects from `wText`. -/
def wRewards : List (List Char) :=
  [("R6 Siege Drops").data, ("Watch 4 hours to earn a charm").data]

/-- The record parsed from `(wText, wLinks)`. -/
def wRec : Item :=
  { game_name := ("R6 Siege Drops").data
    game_slug := ("tom-clancys-rainbow-six-siege").data
    campaign_title := ("R6 Siege Drops").data
    timeframe := ("Sat, Jan 10 - Jan 24 GMT").data
    start_raw := some ("Sat, Jan 10").data
    end_raw := some ("Jan 24 GMT").data
    rewards := wRewards
    raw_text := wText
    id := make_id ("tom-clancys-rainbow-six-siege").data
      ("Sat, Jan 10 - Jan 24 GMT").data wRewards }

/-- The record parsed from `(wText2, wLinks)`: same except `raw_text`. -/
def wRec2 : Item := { wRec with raw_text := wText2 }

set_option maxRecDepth 100000 in
/-- The parser maps the witness row to `wRec`. -/
theorem parse_wRec : parse_campaign_row wText wLinks = some wRec := rfl

set_option maxRecDepth 100000 in
/-- The parser maps the variant witness row to `wRec2`. -/
theorem parse_wRec2 : parse_campaign_row wText2 wLinks = some wRec2 := rfl

/-! ## Claims about the Campaign Parser -/

/-- Claim C5: for every `(text, links)` input the Campaign Parser returns
`none` whenever the row text is below the minimal length threshold (20 code
points in the source), and returns `none` whenever no link matches the
category-directory URL pattern. -/
theorem C5_parser_rejects (text : List Char) (links : List (List Char)) :
    (text.length < 20 → parse_campaign_row text links = none) ∧
    (extract_game_from_links links = none → parse_campaign_row text links = none) := by
  constructor
  · intro h
    unfold parse_campaign_row
    rw [if_pos (by simp [h])]
  · intro h
    unfold parse_campaign_row
    by_cases hg : (text.isEmpty || decide (text.length < 20)) = true
    · rw [if_pos hg]
    · rw [if_neg hg, h]

/-- Witness for C5: the spec's 10-character-no-links scenario, and a long row
whose only link lacks the directory pattern. -/
theorem C5_witness :
    parse_campaign_row (List.replicate 10 'a') [] = none ∧
    parse_campaign_row (List.replicate 25 'b') [("https://example.com").data] = none :=
  ⟨(C5_parser_rejects (List.replicate 10 'a') []).1 (by decide),
   (C5_parser_rejects (List.replicate 25 'b') [("https://example.com").data]).2 (by decide)⟩

/-- Claim C6: in every parsed record, `start_raw`/`end_raw` are the stripped
halves of `timeframe` split at its first literal `" - "`; when `timeframe`
has no separator both are `none`; when it has one, both are `some` — the
split never leaves exactly one of the two absent. -/
theorem C6_startEnd_split (text : List Char) (links : List (List Char)) (r : Item)
    (h : parse_campaign_row text links = some r) :
    (containsSub r.timeframe sepLit = false → r.start_raw = none ∧ r.end_raw = none) ∧
    (containsSub r.timeframe sepLit = true →
      r.start_raw = some (pyStrip (splitFirst r.timeframe sepLit).1) ∧
      r.end_raw = some (pyStrip (splitFirst r.timeframe sepLit).2)) := by
  obtain ⟨_, htf, _, _, hsr, her, _, _, _⟩ := parse_inv h
  constructor
  · intro hn
    rw [hsr, her]
    unfold mkStartEnd
    rw [if_neg (by simp [hn])]
    exact ⟨rfl, rfl⟩
  · intro hy
    rcases pickTimeframe_shape text with h0 | ⟨hne, x, hx⟩
    · rw [htf, h0] at hy
      exact absurd hy (by decide)
    · have h1 := mkStartEnd_of_sep (x := x) (htf.trans hx) (by rw [htf]; exact hne) hy
      rw [hsr, her, h1]
      exact ⟨rfl, rfl⟩

/-- Witness for C6: the witness record's timeframe contains `" - "` and both
halves appear stripped in `start_raw`/`end_raw`. -/
theorem C6_witness :
    wRec.start_raw = some (pyStrip (splitFirst wRec.timeframe sepLit).1) ∧
    wRec.end_raw = some (pyStrip (splitFirst wRec.timeframe sepLit).2) :=
  (C6_startEnd_split wText wLinks wRec parse_wRec).2 (by decide)

/-- Claim C7: in every parsed record, `game_name` is the first of the first
four lines that is at most 50 characters and lacks the word "campaign"
(case-insensitively); when no such line exists it is the title-cased
derivation of the slug (hyphens to spaces); and it is never empty. -/
theorem C7_gameName (text : List Char) (links : List (List Char)) (r : Item)
    (h : parse_campaign_row text links = some r) :
    (∀ ln, ((parseLines text).take 4).find? goodNameLine = some ln → r.game_name = ln) ∧
    (((parseLines text).take 4).find? goodNameLine = none →
      r.game_name = pyTitle (r.game_slug.map dashToSpace)) ∧
    r.game_name ≠ [] := by
  obtain ⟨hex, _, hgn, _, _, _, _, _, _⟩ := parse_inv h
  have hslug : r.game_slug ≠ [] := extract_slug_ne_nil hex
  have hfound : ∀ ln, ((parseLines text).take 4).find? goodNameLine = some ln →
      r.game_name = ln ∧ ln ≠ [] := by
    intro ln hf
    have hpick : pickGameName (parseLines text) = ln := by
      unfold pickGameName
      rw [hf]
      rfl
    have hmem : ln ∈ parseLines text :=
      List.take_subset _ _ (List.mem_of_find?_eq_some hf)
    have hlnne : ln ≠ [] := (mem_parseLines hmem).1
    refine ⟨?_, hlnne⟩
    rw [hgn, hpick, if_neg (by simpa [List.isEmpty_iff] using hlnne)]
  refine ⟨fun ln hf => (hfound ln hf).1, ?_, ?_⟩
  · intro hf
    have hpick : pickGameName (parseLines text) = [] := by
      unfold pickGameName
      rw [hf]
      rfl
    rw [hgn, hpick]
    simp
  · cases hf : ((parseLines text).take 4).find? goodNameLine with
    | some ln =>
      obtain ⟨h1, h2⟩ := hfound ln hf
      rw [h1]
      exact h2
    | none =>
      have hpick : pickGameName (parseLines text) = [] := by
        unfold pickGameName
        rw [hf]
        rfl
      rw [hgn, hpick]
      simpa using pyTitle_fallback_ne_nil hslug

/-- Witness for C7: the witness row's first line is picked as the game name,
and the name is non-empty. -/
theorem C7_witness : wRec.game_name = ("R6 Siege Drops").data ∧ wRec.game_name ≠ [] :=
  ⟨(C7_gameName wText wLinks wRec parse_wRec).1 (("R6 Siege Drops").data) (by decide),
   (C7_gameName wText wLinks wRec parse_wRec).2.2⟩

/-- Claim C2: a parsed record's `id` is a pure function of the triple
`(game_slug, timeframe, rewards)`: two parsed records agreeing on those three
fields have equal ids, whatever their `raw_text`, `game_name` or
`campaign_title`. -/
theorem C2_id_pure (t1 : List Char) (l1 : List (List Char)) (t2 : List Char)
    (l2 : List (List Char)) (r1 r2 : Item)
    (h1 : parse_campaign_row t1 l1 = some r1)
    (h2 : parse_campaign_row t2 l2 = some r2)
    (hs : r1.game_slug = r2.game_slug) (ht : r1.timeframe = r2.timeframe)
    (hr : r1.rewards = r2.rewards) : r1.id = r2.id := by
  obtain ⟨_, _, _, _, _, _, _, _, hid1⟩ := parse_inv h1
  obtain ⟨_, _, _, _, _, _, _, _, hid2⟩ := parse_inv h2
  rw [hid1, hid2, hs, ht, hr]

/-- Witness for C2: the two witness rows parse to records differing in
`raw_text` only, and their ids coincide. -/
theorem C2_witness : wRec2.raw_text ≠ wRec.raw_text ∧ wRec.id = wRec2.id :=
  ⟨by decide,
   C2_id_pure wText wLinks wText2 wLinks wRec wRec2 parse_wRec parse_wRec2 rfl rfl rfl⟩

/-! ## Lemmas about the id-keyed dict -/

/-- Key-set membership as an existential. -/
theorem hasKey_iff {m : List (List Char × Item)} {k : List Char} :
    hasKey m k = true ↔ ∃ p ∈ m, p.1 = k := by
  simp [hasKey, List.any_eq_true]

/-- Inserting a fresh key appends. -/
theorem insertPy_of_not_hasKey {m : List (List Char × Item)} {k : List Char} {v : Item}
    (h : hasKey m k = false) : insertPy m k v = m ++ [(k, v)] := by
  unfold insertPy
  rw [hasKey] at h
  rw [if_neg (by rw [h]; exact Bool.false_ne_true)]

/-- Inserting never changes the key sequence except by appending a fresh key. -/
theorem keys_insertPy (m : List (List Char × Item)) (k : List Char) (v : Item) :
    (insertPy m k v).map Prod.fst = m.map Prod.fst ∨
    (insertPy m k v).map Prod.fst = m.map Prod.fst ++ [k] ∧ hasKey m k = false := by
  unfold insertPy
  by_cases h : m.any (fun q => decide (q.1 = k)) = true
  · rw [if_pos h]
    left
    rw [List.map_map]
    refine List.map_congr_left ?_
    intro p _
    by_cases hp : p.1 = k
    · simp [hp]
    · simp [hp]
  · rw [if_neg h]
    right
    refine ⟨by simp, ?_⟩
    rw [hasKey]
    exact Bool.eq_false_iff.mpr h

/-- The keys of every built map are pairwise distinct. -/
theorem buildMap_key_nodup (cs : List Item) : ((buildMap cs).map Prod.fst).Nodup := by
  suffices hgen : ∀ m : List (List Char × Item), (m.map Prod.fst).Nodup →
      ((cs.foldl (fun m c => insertPy m c.id c) m).map Prod.fst).Nodup by
    exact hgen [] (by simp)
  induction cs with
  | nil => intro m hm; simpa using hm
  | cons c cs ih =>
    intro m hm
    simp only [List.foldl_cons]
    refine ih (insertPy m c.id c) ?_
    rcases keys_insertPy m c.id c with h | ⟨h, hfresh⟩
    · rw [h]; exact hm
    · rw [h]
      rw [List.nodup_append]
      refine ⟨hm, List.nodup_singleton _, ?_⟩
      intro a ha hb
      rw [List.mem_singleton] at hb
      obtain ⟨p, hp, hpa⟩ := List.mem_map.mp ha
      have hk : hasKey m c.id = true := hasKey_iff.mpr ⟨p, hp, by rw [hpa, hb]⟩
      rw [hk] at hfresh
      simp at hfresh

/-- Every entry of a built map pairs a record with its own id, and holds a
record from the input list. -/
theorem buildMap_entry (cs : List Item) :
    ∀ p ∈ buildMap cs, p.2.id = p.1 ∧ p.2 ∈ cs := by
  suffices hgen : ∀ m : List (List Char × Item),
      (∀ p ∈ m, p.2.id = p.1 ∧ p.2 ∈ cs) →
      ∀ p ∈ cs.foldl (fun m c => insertPy m c.id c) m, p.2.id = p.1 ∧ p.2 ∈ cs by
    exact hgen [] (by simp)
  suffices hcons : ∀ (ds : List Item) (m : List (List Char × Item)),
      (∀ p ∈ m, p.2.id = p.1 ∧ p.2 ∈ cs) → (∀ d ∈ ds, d ∈ cs) →
      ∀ p ∈ ds.foldl (fun m c => insertPy m c.id c) m, p.2.id = p.1 ∧ p.2 ∈ cs by
    intro m hm
    exact hcons cs m hm (fun d hd => hd)
  intro ds
  induction ds with
  | nil => intro m hm _; simpa using hm
  | cons d ds ih =>
    intro m hm hds
    simp only [List.foldl_cons]
    refine ih (insertPy m d.id d) ?_ (fun e he => hds e (List.mem_cons_of_mem _ he))
    intro p hp
    unfold insertPy at hp
    by_cases h : m.any (fun q => decide (q.1 = d.id)) = true
    · rw [if_pos h] at hp
      obtain ⟨q, hq, hqp⟩ := List.mem_map.mp hp
      by_cases hqk : q.1 = d.id
      · rw [if_pos hqk] at hqp
        subst hqp
        exact ⟨rfl, hds d (List.mem_cons_self _ _)⟩
      · rw [if_neg hqk] at hqp
        subst hqp
        exact hm q hq
    · rw [if_neg h] at hp
      rcases List.mem_append.mp hp with hp | hp
      · exact hm p hp
      · simp only [List.mem_singleton] at hp
        subst hp
        exact ⟨rfl, hds d (List.mem_cons_self _ _)⟩

/-- Lookups in a key-distinct map find exactly the entry itself. -/
theorem find?_self_of_key_nodup : ∀ {m : List (List Char × Item)}
    {p : List Char × Item}, (m.map Prod.fst).Nodup → p ∈ m →
    m.find? (fun q => decide (q.1 = p.1)) = some p := by
  intro m
  induction m with
  | nil => intro p _ hp; simp at hp
  | cons q qs ih =>
    intro p hnd hp
    have hnd2 : (q.1 :: qs.map Prod.fst).Nodup := by
      rw [List.map_cons] at hnd
      exact hnd
    obtain ⟨hq1, hq2⟩ := List.nodup_cons.mp hnd2
    rcases List.mem_cons.mp hp with rfl | hp2
    · exact List.find?_cons_of_pos _ (by simp)
    · have hq : q.1 ≠ p.1 := by
        intro he
        exact hq1 (he ▸ List.mem_map.mpr ⟨p, hp2, rfl⟩)
      rw [List.find?_cons_of_neg _ (by simpa using hq)]
      exact ih hq2 hp2

/-- Dict assignment then lookup: the fresh key maps to the new value, all
other keys are untouched (on key-distinct maps, as all built maps are). -/
theorem lookup_insertPy {m : List (List Char × Item)} (hm : (m.map Prod.fst).Nodup)
    (k' : List Char) (v : Item) (k : List Char) :
    lookupPy (insertPy m k' v) k = if k = k' then some v else lookupPy m k := by
  by_cases hKey : hasKey m k' = true
  · have hupd : ∀ q : List Char × Item,
        ((if q.1 = k' then (k', v) else q) : List Char × Item).1 = q.1 := by
      intro q
      by_cases hq : q.1 = k'
      · simp [hq]
      · simp [hq]
    unfold lookupPy insertPy
    rw [if_pos (by rw [hasKey] at hKey; exact hKey)]
    rw [List.find?_map]
    have hfun : ((fun q : List Char × Item => decide (q.1 = k)) ∘
        (fun q => if q.1 = k' then (k', v) else q)) =
        (fun q : List Char × Item => decide (q.1 = k)) := by
      funext q
      show decide ((if q.1 = k' then (k', v) else q).1 = k) = decide (q.1 = k)
      rw [hupd q]
    rw [hfun]
    by_cases hk : k = k'
    · subst hk
      rw [if_pos rfl]
      obtain ⟨p, hp, hpk⟩ := hasKey_iff.mp hKey
      have hfind := find?_self_of_key_nodup hm hp
      rw [hpk] at hfind
      rw [hfind]
      simp only [Option.map_some', Option.map_map]
      rw [if_pos hpk]
    · rw [if_neg hk]
      cases hf : m.find? (fun q => decide (q.1 = k)) with
      | none => simp
      | some p =>
        have hpk : p.1 = k := by simpa using List.find?_some hf
        have hne : ¬ p.1 = k' := by rw [hpk]; exact hk
        simp only [Option.map_some', Option.map_map]
        rw [if_neg hne]
  · rw [insertPy_of_not_hasKey (Bool.eq_false_iff.mpr hKey)]
    unfold lookupPy
    rw [List.find?_append]
    by_cases hk : k = k'
    · subst hk
      have hnone : m.find? (fun q => decide (q.1 = k)) = none := by
        rw [List.find?_eq_none]
        intro q hq
        simp only [decide_eq_true_eq]
        intro he
        exact hKey (hasKey_iff.mpr ⟨q, hq, he⟩)
      rw [hnone, if_pos rfl]
      simp
    · rw [if_neg hk]
      have hsingle : ([((k', v) : List Char × Item)]).find?
          (fun q => decide (q.1 = k)) = none := by
        rw [List.find?_eq_none]
        intro q hq
        simp only [List.mem_singleton] at hq
        subst hq
        simp only [decide_eq_true_eq]
        exact fun he => hk he.symm
      rw [hsingle]
      simp [lookupPy]

/-- One fold step of `buildMap` from the right. -/
theorem buildMap_append (cs : List Item) (a : Item) :
    buildMap (cs ++ [a]) = insertPy (buildMap cs) a.id a := by
  unfold buildMap
  rw [List.foldl_append]
  rfl

/-- The dict built over a run holds, for each id, the **last** record of the
run carrying that id. -/
theorem lookup_buildMap_lastSeen (cs : List Item) (k : List Char) :
    lookupPy (buildMap cs) k = cs.reverse.find? (fun c => decide (c.id = k)) := by
  induction cs using List.reverseRecOn with
  | nil => simp [buildMap, lookupPy]
  | append_singleton l a ih =>
    rw [buildMap_append]
    rw [lookup_insertPy (buildMap_key_nodup l) a.id a k]
    rw [List.reverse_append]
    simp only [List.reverse_singleton, List.singleton_append]
    by_cases hk : k = a.id
    · subst hk
      rw [if_pos rfl, List.find?_cons_of_pos _ (by simp)]
    · rw [if_neg hk, List.find?_cons_of_neg _ (by simpa using fun he => hk he.symm)]
      exact ih

/-- When the input ids are pairwise distinct, the dict just pairs each record
with its id, in order. -/
theorem buildMap_of_nodup : ∀ {cs : List Item}, (cs.map Item.id).Nodup →
    buildMap cs = cs.map (fun c => (c.id, c)) := by
  suffices hgen : ∀ (cs : List Item) (m : List (List Char × Item)),
      (∀ p ∈ m, ∀ c ∈ cs, p.1 ≠ c.id) → (cs.map Item.id).Nodup →
      cs.foldl (fun m c => insertPy m c.id c) m = m ++ cs.map (fun c => (c.id, c)) by
    intro cs hnd
    have := hgen cs [] (by simp) hnd
    simpa [buildMap] using this
  intro cs
  induction cs with
  | nil => intro m _ _; simp
  | cons c cs ih =>
    intro m hdisj hnd
    simp only [List.foldl_cons]
    have hfresh : hasKey m c.id = false := by
      rw [← Bool.not_eq_true, hasKey, List.any_eq_true]
      rintro ⟨p, hp, hpk⟩
      exact hdisj p hp c (List.mem_cons_self _ _) (by simpa using hpk)
    rw [insertPy_of_not_hasKey hfresh]
    rw [List.map_cons] at hnd
    obtain ⟨hhead, htail⟩ := List.nodup_cons.mp hnd
    rw [ih (m ++ [(c.id, c)]) ?_ htail]
    · simp
    · intro p hp d hd
      rcases List.mem_append.mp hp with hp2 | hp2
      · exact hdisj p hp2 d (List.mem_cons_of_mem _ hd)
      · simp only [List.mem_singleton] at hp2
        subst hp2
        intro he
        have he2 : c.id = d.id := he
        exact hhead (he2 ▸ List.mem_map.mpr ⟨d, hd, rfl⟩)

/-- Searching the dict's value list by id is searching the dict by key. -/
theorem find?_valuesPy : ∀ {m : List (List Char × Item)},
    (∀ p ∈ m, p.2.id = p.1) → ∀ k : List Char,
    (valuesPy m).find? (fun c => decide (c.id = k)) = lookupPy m k := by
  intro m
  induction m with
  | nil => intro _ k; simp [valuesPy, lookupPy]
  | cons q qs ih =>
    intro hinv k
    have hq : q.2.id = q.1 := (hinv q (List.mem_cons_self _ _)).symm ▸
      (hinv q (List.mem_cons_self _ _))
    by_cases hk : q.1 = k
    · have : (valuesPy (q :: qs)).find? (fun c => decide (c.id = k)) = some q.2 := by
        show (q.2 :: valuesPy qs).find? (fun c => decide (c.id = k)) = some q.2
        exact List.find?_cons_of_pos _ (by simp [hq, hk])
      rw [this]
      unfold lookupPy
      rw [List.find?_cons_of_pos _ (by simp [hk])]
      rfl
    · have : (valuesPy (q :: qs)).find? (fun c => decide (c.id = k)) =
          (valuesPy qs).find? (fun c => decide (c.id = k)) := by
        show (q.2 :: valuesPy qs).find? (fun c => decide (c.id = k)) = _
        exact List.find?_cons_of_neg _ (by simp [hq, hk])
      rw [this]
      rw [ih (fun p hp => hinv p (List.mem_cons_of_mem _ hp)) k]
      unfold lookupPy
      rw [List.find?_cons_of_neg _ (by simp [hk])]

/-- The dedup step emits each record keyed under its own id. -/
theorem dedup_step_ids (items : List Item) :
    (dedup_step items).map Item.id = (buildMap items).map Prod.fst := by
  unfold dedup_step valuesPy
  rw [List.map_map]
  exact List.map_congr_left (fun p hp => (buildMap_entry items p hp).1)

/-! ## Claims about Identity & Dedup and the Diff Engine -/

/-- Claim C4: the Identity & Dedup step produces pairwise-distinct ids, keeps
for every id the last-seen record of the run, and is idempotent. -/
theorem C4_dedup (items : List Item) :
    ((dedup_step items).map Item.id).Nodup ∧
    (∀ k : List Char, (dedup_step items).find? (fun c => decide (c.id = k)) =
      items.reverse.find? (fun c => decide (c.id = k))) ∧
    dedup_step (dedup_step items) = dedup_step items := by
  have hnodup : ((dedup_step items).map Item.id).Nodup := by
    rw [dedup_step_ids]
    exact buildMap_key_nodup items
  refine ⟨hnodup, ?_, ?_⟩
  · intro k
    unfold dedup_step
    rw [find?_valuesPy (fun p hp => (buildMap_entry items p hp).1) k]
    exact lookup_buildMap_lastSeen items k
  · show valuesPy (buildMap (dedup_step items)) = dedup_step items
    rw [buildMap_of_nodup hnodup]
    unfold valuesPy
    rw [List.map_map]
    exact List.map_id _

/-- Claim C3: diffing any snapshot against itself yields the empty diff. -/
theorem C3_diff_self (S : Snapshot) :
    diff_campaigns S S = { added := [], removed := [], changed := [] } := by
  simp only [diff_campaigns]
  have hempty : (buildMap S.campaigns).filter
      (fun p => !hasKey (buildMap S.campaigns) p.1) = [] := by
    rw [List.filter_eq_nil_iff]
    intro p hp
    rw [hasKey_iff.mpr ⟨p, hp, rfl⟩]
    simp
  have hchanged : (buildMap S.campaigns).filterMap
      (changedEntry (buildMap S.campaigns)) = [] := by
    rw [List.filterMap_eq_nil_iff]
    intro p hp
    have hself : lookupPy (buildMap S.campaigns) p.1 = some p.2 := by
      unfold lookupPy
      rw [find?_self_of_key_nodup (buildMap_key_nodup S.campaigns) hp]
      rfl
    unfold changedEntry
    rw [hself]
    show (if p.2.timeframe ≠ p.2.timeframe ∨ p.2.rewards ≠ p.2.rewards
          then some p.2 else none) = none
    rw [if_neg (by simp)]
  rw [hempty, hchanged]
  rfl

/-- Equation of `changedEntry` when the key is absent from the new index. -/
theorem changedEntry_eq_none {nm : List (List Char × Item)} {p : List Char × Item}
    (h : lookupPy nm p.1 = none) : changedEntry nm p = none := by
  unfold changedEntry
  rw [h]

/-- Equation of `changedEntry` when the key is present in the new index. -/
theorem changedEntry_eq_some {nm : List (List Char × Item)} {p : List Char × Item}
    {c : Item} (h : lookupPy nm p.1 = some c) :
    changedEntry nm p =
      if p.2.timeframe ≠ c.timeframe ∨ p.2.rewards ≠ c.rewards then some c else none := by
  unfold changedEntry
  rw [h]

/-- Claim C10: every record the Diff Engine reports as changed is the NEW
snapshot's version of that campaign: it is a member of the new campaign list
and it is exactly what the new snapshot's id index holds under its id. -/
theorem C10_changed_is_new (old new : Snapshot) (c : Item)
    (h : c ∈ (diff_campaigns old new).changed) :
    c ∈ new.campaigns ∧ lookupPy (buildMap new.campaigns) c.id = some c := by
  simp only [diff_campaigns] at h
  obtain ⟨p, hp, hf⟩ := List.mem_filterMap.mp h
  cases hl : lookupPy (buildMap new.campaigns) p.1 with
  | none => rw [changedEntry_eq_none hl] at hf; exact absurd hf (by simp)
  | some c' =>
    rw [changedEntry_eq_some hl] at hf
    by_cases hcond : p.2.timeframe ≠ c'.timeframe ∨ p.2.rewards ≠ c'.rewards
    · rw [if_pos hcond] at hf
      simp only [Option.some.injEq] at hf
      subst hf
      unfold lookupPy at hl
      cases hfind : (buildMap new.campaigns).find? (fun q => decide (q.1 = p.1)) with
      | none => rw [hfind] at hl; exact absurd hl (by simp)
      | some q =>
        rw [hfind] at hl
        simp only [Option.map_some', Option.some.injEq] at hl
        have hqmem : q ∈ buildMap new.campaigns := List.mem_of_find?_eq_some hfind
        obtain ⟨hqid, hqcs⟩ := buildMap_entry new.campaigns q hqmem
        have hq1 : q.1 = p.1 := by simpa using List.find?_some hfind
        have hcid : c'.id = p.1 := by rw [← hl, hqid]; exact hq1
        refine ⟨hl ▸ hqcs, ?_⟩
        rw [hcid]
        unfold lookupPy
        rw [hfind]
        show some q.2 = some c'
        rw [hl]
    · rw [if_neg hcond] at hf
      exact absurd hf (by simp)

/-- Concrete record: campaign with id `x` and timeframe `t1`. -/
def itemT1 : Item :=
  { game_name := ("G").data, game_slug := ("g").data, campaign_title := ("T").data,
    timeframe := ("t1").data, start_raw := none, end_raw := none, rewards := [],
    raw_text := ("x").data, id := ("x").data }

/-- Concrete record: the same id `x` with an updated timeframe `t2`. -/
def itemT2 : Item := { itemT1 with timeframe := ("t2").data, raw_text := ("y").data }

/-- Old snapshot of the in-place-change scenario. -/
def old10 : Snapshot := { scraped_at := none, count := none, campaigns := [itemT1] }

/-- New snapshot of the in-place-change scenario. -/
def new10 : Snapshot := { scraped_at := none, count := none, campaigns := [itemT2] }

/-- Witness for C10: a one-campaign snapshot whose timeframe changes in place
(same id) produces a changed entry equal to the new snapshot's record. -/
theorem C10_witness :
    itemT2 ∈ new10.campaigns ∧
    lookupPy (buildMap new10.campaigns) itemT2.id = some itemT2 :=
  C10_changed_is_new old10 new10 itemT2 (by decide)

/-- A successful id-index lookup returns a member of the run bearing the
looked-up id (no uniqueness needed). -/
theorem lookupPy_buildMap_some {cs : List Item} {k : List Char} {c : Item}
    (h : lookupPy (buildMap cs) k = some c) : c ∈ cs ∧ c.id = k := by
  unfold lookupPy at h
  cases hf : (buildMap cs).find? (fun q => decide (q.1 = k)) with
  | none => rw [hf] at h; exact absurd h (by simp)
  | some q =>
    rw [hf] at h
    simp only [Option.map_some', Option.some.injEq] at h
    obtain ⟨hqid, hqm⟩ := buildMap_entry cs q (List.mem_of_find?_eq_some hf)
    have hq1 : q.1 = k := by simpa using List.find?_some hf
    subst h
    exact ⟨hqm, by rw [hqid, hq1]⟩

/-- The id index knows a key exactly when some record of the run carries it. -/
theorem hasKey_buildMap (as : List Item) (k : List Char) :
    hasKey (buildMap as) k = true ↔ ∃ a ∈ as, a.id = k := by
  constructor
  · intro h
    obtain ⟨p, hp, hpk⟩ := hasKey_iff.mp h
    obtain ⟨hid, hmem⟩ := buildMap_entry as p hp
    exact ⟨p.2, hmem, by rw [hid, hpk]⟩
  · rintro ⟨a, ha, hak⟩
    by_contra hno
    have hnone : lookupPy (buildMap as) k = none := by
      unfold lookupPy
      cases hf : (buildMap as).find? (fun q => decide (q.1 = k)) with
      | none => rfl
      | some p =>
        exact absurd (hasKey_iff.mpr ⟨p, List.mem_of_find?_eq_some hf,
          by simpa using List.find?_some hf⟩) hno
    have hlook := lookup_buildMap_lastSeen as k
    rw [hnone] at hlook
    have hrev : as.reverse.find? (fun c => decide (c.id = k)) = none := hlook.symm
    rw [List.find?_eq_none] at hrev
    have hna : ¬ decide (a.id = k) = true := hrev a (List.mem_reverse.mpr ha)
    simp only [decide_eq_true_eq] at hna
    exact hna hak

/-- Membership in one side of the key-set difference of `diff_campaigns`:
the values of `buildMap bs` filtered to keys unknown to `buildMap as` are the
records of `bs` whose id no record of `as` carries. -/
theorem mem_minus (as bs : List Item) (hbs : (bs.map Item.id).Nodup) (c : Item) :
    c ∈ valuesPy ((buildMap bs).filter (fun p => !hasKey (buildMap as) p.1)) ↔
    (c ∈ bs ∧ ∀ a ∈ as, a.id ≠ c.id) := by
  unfold valuesPy
  rw [buildMap_of_nodup hbs]
  constructor
  · intro h
    obtain ⟨p, hpf, hpc⟩ := List.mem_map.mp h
    obtain ⟨hpm, hq⟩ := List.mem_filter.mp hpf
    obtain ⟨b, hb, rfl⟩ := List.mem_map.mp hpm
    have hc : b = c := hpc
    subst hc
    refine ⟨hb, ?_⟩
    intro a ha he
    have hfalse : hasKey (buildMap as) b.id = false := by simpa using hq
    rw [(hasKey_buildMap as b.id).mpr ⟨a, ha, he⟩] at hfalse
    simp at hfalse
  · rintro ⟨hc, hall⟩
    refine List.mem_map.mpr ⟨(c.id, c), ?_, rfl⟩
    refine List.mem_filter.mpr ⟨List.mem_map.mpr ⟨c, hc, rfl⟩, ?_⟩
    have hfalse : hasKey (buildMap as) c.id = false := by
      rw [← Bool.not_eq_true]
      intro htrue
      obtain ⟨a, ha, hak⟩ := (hasKey_buildMap as c.id).mp htrue
      exact hall a ha hak
    simpa using hfalse

/-- Lookup in a duplicate-free pairing map is `find?` by id. -/
theorem lookupPy_map_pair (cs : List Item) (k : List Char) :
    lookupPy (cs.map (fun c => (c.id, c))) k = cs.find? (fun c => decide (c.id = k)) := by
  unfold lookupPy
  rw [List.find?_map]
  have hfun : ((fun q : List Char × Item => decide (q.1 = k)) ∘
      (fun c : Item => (c.id, c))) = (fun c : Item => decide (c.id = k)) :=
    funext fun c => rfl
  rw [hfun]
  cases h : cs.find? (fun c : Item => decide (c.id = k)) with
  | none => simp
  | some a => simp

/-- Under pairwise-distinct ids, `find?` by a member's id returns that
member. -/
theorem find?_id_of_nodup : ∀ {cs : List Item} {c : Item}, (cs.map Item.id).Nodup →
    c ∈ cs → cs.find? (fun x => decide (x.id = c.id)) = some c := by
  intro cs
  induction cs with
  | nil => intro c _ hc; simp at hc
  | cons a as ih =>
    intro c hnd hc
    rw [List.map_cons] at hnd
    obtain ⟨hhead, htail⟩ := List.nodup_cons.mp hnd
    rcases List.mem_cons.mp hc with rfl | hc2
    · exact List.find?_cons_of_pos _ (by simp)
    · have hne : a.id ≠ c.id := fun he => hhead (he ▸ List.mem_map.mpr ⟨c, hc2, rfl⟩)
      rw [List.find?_cons_of_neg _ (by simpa using hne)]
      exact ih htail hc2

/-- Claim C1: for snapshots satisfying the id-uniqueness invariant, the Diff
Engine classifies exactly as the spec states: `added` holds the records of
`new` whose id is absent from `old`; `removed` holds the records of `old`
whose id is absent from `new`; `changed` holds the new records whose id is
in both snapshots with differing `timeframe` or `rewards`; and a campaign
re-identified under a fresh id (e.g. after a timeframe change) lands in
`removed` plus `added` and never in `changed`. -/
theorem C1_diff_classification (old new : Snapshot)
    (h1 : (old.campaigns.map Item.id).Nodup)
    (h2 : (new.campaigns.map Item.id).Nodup) :
    (∀ c, c ∈ (diff_campaigns old new).added ↔
      c ∈ new.campaigns ∧ ∀ o ∈ old.campaigns, o.id ≠ c.id) ∧
    (∀ c, c ∈ (diff_campaigns old new).removed ↔
      c ∈ old.campaigns ∧ ∀ n ∈ new.campaigns, n.id ≠ c.id) ∧
    (∀ c, c ∈ (diff_campaigns old new).changed ↔
      c ∈ new.campaigns ∧ ∃ o ∈ old.campaigns, o.id = c.id ∧
        (o.timeframe ≠ c.timeframe ∨ o.rewards ≠ c.rewards)) ∧
    (∀ o n, o ∈ old.campaigns → n ∈ new.campaigns →
      (∀ x ∈ new.campaigns, x.id ≠ o.id) → (∀ x ∈ old.campaigns, x.id ≠ n.id) →
      o ∈ (diff_campaigns old new).removed ∧ n ∈ (diff_campaigns old new).added ∧
      o ∉ (diff_campaigns old new).changed ∧ n ∉ (diff_campaigns old new).changed) := by
  have hadd : ∀ c, c ∈ (diff_campaigns old new).added ↔
      c ∈ new.campaigns ∧ ∀ o ∈ old.campaigns, o.id ≠ c.id := by
    intro c
    exact mem_minus old.campaigns new.campaigns h2 c
  have hrem : ∀ c, c ∈ (diff_campaigns old new).removed ↔
      c ∈ old.campaigns ∧ ∀ n ∈ new.campaigns, n.id ≠ c.id := by
    intro c
    exact mem_minus new.campaigns old.campaigns h1 c
  have hch : ∀ c, c ∈ (diff_campaigns old new).changed ↔
      c ∈ new.campaigns ∧ ∃ o ∈ old.campaigns, o.id = c.id ∧
        (o.timeframe ≠ c.timeframe ∨ o.rewards ≠ c.rewards) := by
    intro c
    show c ∈ (buildMap old.campaigns).filterMap (changedEntry (buildMap new.campaigns)) ↔ _
    rw [List.mem_filterMap]
    constructor
    · rintro ⟨p, hp, hf⟩
      obtain ⟨hpid, hpm⟩ := buildMap_entry old.campaigns p hp
      cases hl : lookupPy (buildMap new.campaigns) p.1 with
      | none => rw [changedEntry_eq_none hl] at hf; exact absurd hf (by simp)
      | some c2 =>
        rw [changedEntry_eq_some hl] at hf
        by_cases hcond : p.2.timeframe ≠ c2.timeframe ∨ p.2.rewards ≠ c2.rewards
        · rw [if_pos hcond] at hf
          simp only [Option.some.injEq] at hf
          subst hf
          obtain ⟨hcn, hcid⟩ := lookupPy_buildMap_some hl
          refine ⟨hcn, p.2, hpm, ?_, hcond⟩
          rw [hpid, ← hcid]
        · rw [if_neg hcond] at hf
          exact absurd hf (by simp)
    · rintro ⟨hc, o, ho, hid, hcond⟩
      refine ⟨(o.id, o), ?_, ?_⟩
      · rw [buildMap_of_nodup h1]
        exact List.mem_map.mpr ⟨o, ho, rfl⟩
      · have hl : lookupPy (buildMap new.campaigns)
            ((o.id, o) : List Char × Item).1 = some c := by
          show lookupPy (buildMap new.campaigns) o.id = some c
          rw [buildMap_of_nodup h2, lookupPy_map_pair, hid]
          exact find?_id_of_nodup h2 hc
        rw [changedEntry_eq_some hl]
        show (if o.timeframe ≠ c.timeframe ∨ o.rewards ≠ c.rewards
              then some c else none) = some c
        rw [if_pos hcond]
  refine ⟨hadd, hrem, hch, ?_⟩
  intro o n ho hn hno hnn
  refine ⟨(hrem o).mpr ⟨ho, hno⟩, (hadd n).mpr ⟨hn, hnn⟩, ?_, ?_⟩
  · intro hoc
    obtain ⟨homem, _, _, _⟩ := (hch o).mp hoc
    exact hno o homem rfl
  · intro hnc
    obtain ⟨_, o2, ho2, hid2, _⟩ := (hch n).mp hnc
    exact hnn o2 ho2 hid2

/-- Concrete record for the C1 scenario: slug `a`, id `x`, timeframe `t1`. -/
def itemX : Item :=
  { game_name := ("A").data, game_slug := ("a").data, campaign_title := ("T").data,
    timeframe := ("t1").data, start_raw := none, end_raw := none, rewards := [],
    raw_text := ("r1").data, id := ("x").data }

/-- Concrete record for the C1 scenario: same slug `a`, different timeframe
`t2` and therefore a different id `y`. -/
def itemY : Item := { itemX with timeframe := ("t2").data, id := ("y").data }

/-- Witness for C1: in the spec's re-identification scenario the old record
lands in `removed`, the new one in `added`, and neither in `changed`. -/
theorem C1_witness :
    itemX ∈ (diff_campaigns { scraped_at := none, count := none, campaigns := [itemX] }
      { scraped_at := none, count := none, campaigns := [itemY] }).removed ∧
    itemY ∈ (diff_campaigns { scraped_at := none, count := none, campaigns := [itemX] }
      { scraped_at := none, count := none, campaigns := [itemY] }).added ∧
    itemX ∉ (diff_campaigns { scraped_at := none, count := none, campaigns := [itemX] }
      { scraped_at := none, count := none, campaigns := [itemY] }).changed ∧
    itemY ∉ (diff_campaigns { scraped_at := none, count := none, campaigns := [itemX] }
      { scraped_at := none, count := none, campaigns := [itemY] }).changed :=
  (C1_diff_classification
    { scraped_at := none, count := none, campaigns := [itemX] }
    { scraped_at := none, count := none, campaigns := [itemY] }
    (by decide) (by decide)).2.2.2 itemX itemY (by decide) (by decide)
    (by decide) (by decide)

/-! ## Claims about the Snapshot Store and the Target Filter & Notifier -/

/-- Claim C8: `load_previous` never fails its caller: when the snapshot file
is missing or its content fails to parse, it returns the empty snapshot
(campaigns list empty) instead of propagating the error; a parsed document
is returned as is. -/
theorem C8_load_never_fails (e : List Char) (s : Snapshot) :
    (load_previous none).campaigns = [] ∧
    (load_previous (some (Except.error e))).campaigns = [] ∧
    load_previous (some (Except.ok s)) = s :=
  ⟨rfl, rfl, rfl⟩

/-- The slug filter `c["game_slug"] in TARGET_SLUGS` of `notify_for_targets`. -/
def inTargets (targets : List (List Char)) (c : Item) : Bool :=
  targets.any (fun t => decide (t = c.game_slug))

/-- Claim C9: the notifier keeps only `added`/`changed` records whose slug is
watched; it sends nothing exactly when both filtered lists are empty; the
`removed` list never influences it; and an unwatched record prepended to
`added` changes nothing. -/
theorem C9_notify_targets (targets : List (List Char)) (d : DiffResult) :
    (notify_for_targets targets d = none ↔
      (d.added.filter (inTargets targets) = [] ∧
       d.changed.filter (inTargets targets) = [])) ∧
    (∀ rem, notify_for_targets targets
      { added := d.added, removed := rem, changed := d.changed } =
      notify_for_targets targets d) ∧
    (∀ c, inTargets targets c = false →
      notify_for_targets targets
        { added := c :: d.added, removed := d.removed, changed := d.changed } =
      notify_for_targets targets d) := by
  refine ⟨?_, ?_, ?_⟩
  · unfold notify_for_targets
    by_cases h : ((d.added.filter (fun c => targets.any (fun t => decide (t = c.game_slug)))).isEmpty
        && (d.changed.filter (fun c => targets.any (fun t => decide (t = c.game_slug)))).isEmpty) = true
    · rw [if_pos h]
      simp only [Bool.and_eq_true, List.isEmpty_iff] at h
      simpa [inTargets] using h
    · rw [if_neg h]
      simp only [Bool.and_eq_true, List.isEmpty_iff] at h
      constructor
      · intro hfalse
        exact absurd hfalse (by simp)
      · intro hboth
        exact absurd (by simpa [inTargets] using hboth) h
  · intro rem
    rfl
  · intro c hc
    unfold notify_for_targets
    have hfilter : (c :: d.added).filter
        (fun c => targets.any (fun t => decide (t = c.game_slug))) =
        d.added.filter (fun c => targets.any (fun t => decide (t = c.game_slug))) := by
      rw [List.filter_cons]
      rw [if_neg ?_]
      intro htrue
      rw [inTargets] at hc
      rw [hc] at htrue
      simp at htrue
    show (if ((c :: d.added).filter _).isEmpty && _ then _ else _) = _
    rw [hfilter]

/-- Concrete record with unwatched slug `b` for the notifier scenario. -/
def itemB : Item :=
  { game_name := ("B").data, game_slug := ("b").data, campaign_title := ("T").data,
    timeframe := ("t").data, start_raw := none, end_raw := none, rewards := [],
    raw_text := ("r").data, id := ("z").data }

/-- Witness for C9: with watch set `{"a"}` and a diff holding one added
record with slug `"b"`, the notifier performs no send. -/
theorem C9_witness :
    notify_for_targets [("a").data]
      { added := [itemB], removed := [], changed := [] } = none := by
  have hstep := (C9_notify_targets [("a").data]
    { added := [], removed := [], changed := [] }).2.2 itemB (by decide)
  have hempty := (C9_notify_targets [("a").data]
    { added := [], removed := [], changed := [] }).1.mpr ⟨rfl, rfl⟩
  exact hstep.trans hempty
